import Mathlib

/-!
Verification of the two-cycle TSP solver (`imo-5`): a shallow embedding of
the instance model (`tsplib.rs`), the move model (`moves/types.rs`,
`moves/intra_route.rs`), the local-search loop (`algorithms/local_search/base.rs`),
and the metaheuristic drivers (`algorithms/hae.rs`, `algorithms/msls.rs`),
together with theorems settling the specification claims.

Machine integers (`i32`, `usize`) are modelled as `Int`/`Nat`; the claims
exercised here stay far below any overflow boundary except where a literal
`i32::MAX` appears in the source, which is kept as the literal 2147483647.
Coordinates are modelled as integers; on the integer inputs the claims use,
the `f64` rounded-Euclidean computation of the source is exact and agrees
with the integer `roundSqrt` model below.
-/

/-- `CycleId` from `moves/types.rs`. -/
inductive CycleId where
  | cycle1 : CycleId
  | cycle2 : CycleId
deriving DecidableEq, Repr

/-- `Move` from `moves/types.rs`. -/
inductive Move where
  | interRouteExchange (v1 v2 : Nat) : Move
  | intraRouteVertexExchange (v1 v2 : Nat) (cycle : CycleId) : Move
  | intraRouteEdgeExchange (a b c d : Nat) (cycle : CycleId) : Move
deriving DecidableEq, Repr

/-- `EvaluatedMove` from `moves/types.rs`: a move plus its cost delta (`i32`). -/
structure EvaluatedMove where
  move_type : Move
  delta : Int
deriving DecidableEq, Repr

/-- `Solution` from `tsplib.rs`: two ordered sequences of node indices. -/
structure Solution where
  cycle1 : List Nat
  cycle2 : List Nat
deriving DecidableEq, Repr

/-- Fuel-bounded search for the least `r ≥ r0` satisfying `P`. -/
def leastAux (P : Nat → Bool) : Nat → Nat → Nat
  | 0, r0 => r0
  | fuel + 1, r0 => if P r0 then r0 else leastAux P fuel (r0 + 1)

/-- Rounded integer square root: `⌊√s + 0.5⌋` for a natural `s`, computed as
the least `r` with `4s < (2r+1)²`.  This is the value the source's
`(dist + 0.5).floor() as i32` computes in `TsplibInstance::calculate_distance`
for integer coordinates (where the `f64` computation is exact on the ranges
the claims use). -/
def roundSqrt (s : Nat) : Nat :=
  leastAux (fun r => 4 * s < (2 * r + 1) ^ 2) (s + 1) 0

/-- A loaded EUC_2D instance: the coordinate list (modelled with integer
coordinates).  `tsplib.rs` materializes an `n×n` matrix from
`calculate_distance`; since `distance(i,j)` just reads that matrix back, the
model exposes the computation directly. -/
structure EucInst where
  coords : List (Int × Int)
deriving DecidableEq, Repr

/-- `TsplibInstance::calculate_distance` from `tsplib.rs` (EUC_2D branch):
`0` on the diagonal, otherwise the rounded Euclidean distance. -/
def EucInst.calculate_distance (inst : EucInst) (i j : Nat) : Int :=
  if i = j then 0
  else
    let p := inst.coords.getD i (0, 0)
    let q := inst.coords.getD j (0, 0)
    let dx := q.1 - p.1
    let dy := q.2 - p.2
    (roundSqrt (dx * dx + dy * dy).toNat : Int)

/-- `TsplibInstance::distance`: the matrix lookup, equal to
`calculate_distance` by construction of the matrix. -/
def EucInst.distance (inst : EucInst) (i j : Nat) : Int :=
  inst.calculate_distance i j

/-- `Solution::calculate_cycle_cost` from `tsplib.rs`. -/
def cycleCost (inst : EucInst) (c : List Nat) : Int :=
  ((List.range c.length).map
    (fun i => inst.distance (c.getD i 0) (c.getD ((i + 1) % c.length) 0))).sum

/-- `Solution::calculate_cost` from `tsplib.rs`. -/
def Solution.calculate_cost (s : Solution) (inst : EucInst) : Int :=
  cycleCost inst s.cycle1 + cycleCost inst s.cycle2

/-- Modelled from the spec: `Solution::get_cycle` (not under `src/`; the spec's
Solution interface exposes the two cycles). -/
def Solution.get_cycle (s : Solution) (id : CycleId) : List Nat :=
  match id with
  | .cycle1 => s.cycle1
  | .cycle2 => s.cycle2

/-- Modelled from the spec: `Solution::find_node` (not under `src/`): the
node-to-(cycle, position) lookup; returns the first position of the node,
searching cycle1 then cycle2. -/
def Solution.find_node (s : Solution) (v : Nat) : Option (CycleId × Nat) :=
  match s.cycle1.indexOf? v with
  | some p => some (.cycle1, p)
  | none =>
    match s.cycle2.indexOf? v with
    | some p => some (.cycle2, p)
    | none => none

/-- Modelled from the spec: `Solution::check_edge_in_cycle` (not under `src/`):
returns `some 1` when `(u, v)` is a directed edge of the closed tour `c`,
`some (-1)` when `(v, u)` is, `none` otherwise (the spec's move-validity
contract reads only the `some 1` case). -/
def dirEdgeB (c : List Nat) (u v i : Nat) : Bool :=
  c.getD i 0 == u && c.getD ((i + 1) % c.length) 0 == v

def check_edge_in_cycle (c : List Nat) (u v : Nat) : Option Int :=
  match (List.range c.length).find? (dirEdgeB c u v) with
  | some _ => some 1
  | none =>
    match (List.range c.length).find? (dirEdgeB c v u) with
    | some _ => some (-1)
    | none => none

/-- Write a list back into a solution's cycle slot. -/
def Solution.set_cycle (s : Solution) (id : CycleId) (c : List Nat) : Solution :=
  match id with
  | .cycle1 => { s with cycle1 := c }
  | .cycle2 => { s with cycle2 := c }

/-- Swap of two positions of a list (`Vec::swap`). -/
def listSwap (l : List Nat) (i j : Nat) : List Nat :=
  (l.set i (l.getD j 0)).set j (l.getD i 0)

/-- The segment reversal performed by `Move::apply` for
`IntraRouteEdgeExchange` (`moves/types.rs` lines 96-113): reverse positions
`start..=end`, across the wrap when `start > end`. -/
def reverseSegment (c : List Nat) (start e : Nat) : List Nat :=
  let n := c.length
  if start > e then
    let rev := (c.drop start ++ c.take (e + 1)).reverse
    let k := n - start
    rev.drop k ++ (c.drop (e + 1)).take (start - (e + 1)) ++ rev.take k
  else
    c.take start ++ ((c.drop start).take (e + 1 - start)).reverse ++ c.drop (e + 1)

/-- `Move::apply` from `moves/types.rs`.  The `eprintln!` warning branches
leave the solution unchanged; note that the `IntraRouteEdgeExchange` arm looks
up only `b` and `c` (`d` is bound as `_` and `a` is never looked up). -/
def Move.apply (m : Move) (solution : Solution) : Solution :=
  match m with
  | .interRouteExchange v1 v2 =>
    match solution.find_node v1, solution.find_node v2 with
    | some (.cycle1, pos1), some (.cycle2, pos2) =>
      { solution with
        cycle1 := solution.cycle1.set pos1 v2
        cycle2 := solution.cycle2.set pos2 v1 }
    | some (.cycle2, pos1), some (.cycle1, pos2) =>
      { solution with
        cycle2 := solution.cycle2.set pos1 v2
        cycle1 := solution.cycle1.set pos2 v1 }
    | _, _ => solution
  | .intraRouteVertexExchange v1 v2 cycle =>
    match solution.find_node v1, solution.find_node v2 with
    | some (c1, pos1), some (c2, pos2) =>
      if c1 = cycle ∧ c2 = cycle then
        solution.set_cycle cycle (listSwap (solution.get_cycle cycle) pos1 pos2)
      else solution
    | _, _ => solution
  | .intraRouteEdgeExchange _ b c _ cycle =>
    match solution.find_node b, solution.find_node c with
    | some (cb, pos_b), some (cc, pos_c) =>
      if cb = cycle ∧ cc = cycle then
        let cycle_vec := solution.get_cycle cycle
        if cycle_vec.length < 2 then solution
        else solution.set_cycle cycle (reverseSegment cycle_vec pos_b pos_c)
      else solution
    | _, _ => solution

/-- `evaluate_intra_route_vertex_exchange` from `moves/intra_route.rs`. -/
def evaluate_intra_route_vertex_exchange (solution : Solution) (inst : EucInst)
    (cycle : CycleId) (pos1 pos2 : Nat) : Option EvaluatedMove :=
  let cycle_vec := solution.get_cycle cycle
  let n := cycle_vec.length
  if n < 2 ∨ pos1 = pos2 ∨ pos1 ≥ n ∨ pos2 ≥ n then none
  else
    let p1 := if pos1 ≤ pos2 then pos1 else pos2
    let p2 := if pos1 ≤ pos2 then pos2 else pos1
    let v1 := cycle_vec.getD p1 0
    let v2 := cycle_vec.getD p2 0
    let delta : Int :=
      if n = 2 then 0
      else if p2 = p1 + 1 ∨ (p1 = 0 ∧ p2 = n - 1) then
        let prev1 := cycle_vec.getD (if p1 = 0 then n - 1 else p1 - 1) 0
        let next2 := cycle_vec.getD ((p2 + 1) % n) 0
        (inst.distance prev1 v2 + inst.distance v2 v1 + inst.distance v1 next2)
          - (inst.distance prev1 v1 + inst.distance v1 v2 + inst.distance v2 next2)
      else
        let prev1 := cycle_vec.getD (if p1 = 0 then n - 1 else p1 - 1) 0
        let next1 := cycle_vec.getD ((p1 + 1) % n) 0
        let prev2 := cycle_vec.getD (if p2 = 0 then n - 1 else p2 - 1) 0
        let next2 := cycle_vec.getD ((p2 + 1) % n) 0
        (inst.distance prev1 v2 + inst.distance v2 next1
            + inst.distance prev2 v1 + inst.distance v1 next2)
          - (inst.distance prev1 v1 + inst.distance v1 next1
            + inst.distance prev2 v2 + inst.distance v2 next2)
    some ⟨.intraRouteVertexExchange v1 v2 cycle, delta⟩

/-- `evaluate_intra_route_edge_exchange` from `moves/intra_route.rs`. -/
def evaluate_intra_route_edge_exchange (solution : Solution) (inst : EucInst)
    (cycle : CycleId) (pos1 pos2 : Nat) : Option EvaluatedMove :=
  let cycle_vec := solution.get_cycle cycle
  let n := cycle_vec.length
  if n < 3 ∨ pos1 ≥ n ∨ pos2 ≥ n ∨ pos1 = pos2
      ∨ (pos1 + 1) % n = pos2 ∨ (pos2 + 1) % n = pos1 then none
  else
    let a := cycle_vec.getD pos1 0
    let b := cycle_vec.getD ((pos1 + 1) % n) 0
    let c := cycle_vec.getD pos2 0
    let d := cycle_vec.getD ((pos2 + 1) % n) 0
    let cost_removed := inst.distance a b + inst.distance c d
    let cost_added := inst.distance a c + inst.distance b d
    some ⟨.intraRouteEdgeExchange a b c d cycle, cost_added - cost_removed⟩

/-- The four-node instance used as the failing input for claim C1:
coordinates (0,0), (3,4), (6,0), (100,100); pairwise distances within the
first cycle are d(0,1)=5, d(1,2)=5, d(0,2)=6. -/
def instC1 : EucInst := ⟨[(0, 0), (3, 4), (6, 0), (100, 100)]⟩

/-- The solution used as the failing input for claim C1. -/
def solC1 : Solution := ⟨[0, 1, 2], [3]⟩

/-- C1: For every EvaluatedMove produced by a move evaluator on a valid
two-cycle solution s, applying the move changes the full recomputed cost by
exactly the move's delta; in particular
`evaluate_intra_route_vertex_exchange` returns the exact cost change for every
pair of distinct in-range positions, including the adjacent-with-wrap-around
pair (pos1 = 0, pos2 = n-1).  REFUTED ON THE CODE: on cycle [0,1,2] with the
wrap-around pair (0, 2) the evaluator takes the adjacent branch with
`prev1 = v2` and `next2 = v1`, collapsing the delta to `-2·d(v1,v2) = -12`,
while applying the move (swapping the first and last nodes of a 3-cycle)
leaves the full recomputed cost unchanged (16 before and after). -/
theorem c1_wrap_around_delta_mismatch :
    evaluate_intra_route_vertex_exchange solC1 instC1 .cycle1 0 2 =
      some ⟨.intraRouteVertexExchange 0 2 .cycle1, -12⟩ ∧
    solC1.calculate_cost instC1 = 16 ∧
    ((Move.intraRouteVertexExchange 0 2 .cycle1).apply solC1).calculate_cost instC1 = 16 ∧
    ((Move.intraRouteVertexExchange 0 2 .cycle1).apply solC1).calculate_cost instC1 ≠
      solC1.calculate_cost instC1 + (-12) := by
  refine ⟨by decide, by decide, by decide, by decide⟩

/-- `leastAux` returns the least point of `P` at or above `r0`, provided one
exists within the fuel bound. -/
theorem leastAux_is_least (P : Nat → Bool) :
    ∀ (fuel r0 : Nat), (∃ k, k < fuel ∧ P (r0 + k) = true) →
      r0 ≤ leastAux P fuel r0 ∧ P (leastAux P fuel r0) = true ∧
        ∀ j, r0 ≤ j → j < leastAux P fuel r0 → P j = false := by
  intro fuel
  induction fuel with
  | zero =>
    intro r0 h
    obtain ⟨k, hk, _⟩ := h
    omega
  | succ fuel ih =>
    intro r0 h
    by_cases h0 : P r0 = true
    · refine ⟨by simp [leastAux, h0], by simp [leastAux, h0], ?_⟩
      intro j h1 h2
      simp [leastAux, h0] at h2
      omega
    · have hstep : leastAux P (fuel + 1) r0 = leastAux P fuel (r0 + 1) := by
        simp [leastAux, h0]
      obtain ⟨k, hk, hPk⟩ := h
      have hk0 : k ≠ 0 := by
        intro h'; subst h'; simp at hPk; exact h0 hPk
      have hex : ∃ k', k' < fuel ∧ P (r0 + 1 + k') = true := by
        refine ⟨k - 1, by omega, ?_⟩
        have : r0 + 1 + (k - 1) = r0 + k := by omega
        rw [this]; exact hPk
      obtain ⟨ha, hb, hc⟩ := ih (r0 + 1) hex
      refine ⟨by omega, by rw [hstep]; exact hb, ?_⟩
      intro j h1 h2
      rw [hstep] at h2
      by_cases hj : j = r0
      · subst hj; simpa using h0
      · exact hc j (by omega) h2

/-- `roundSqrt s` satisfies `4s < (2r+1)²` and is the least such `r`. -/
theorem roundSqrt_spec (s : Nat) :
    4 * s < (2 * roundSqrt s + 1) ^ 2 ∧
      ∀ j, j < roundSqrt s → ¬ 4 * s < (2 * j + 1) ^ 2 := by
  have hex : ∃ k, k < s + 1 ∧
      (fun r => decide (4 * s < (2 * r + 1) ^ 2)) (0 + k) = true := by
    refine ⟨s, by omega, ?_⟩
    simp only [Nat.zero_add, decide_eq_true_eq]
    nlinarith
  obtain ⟨_, hP, hmin⟩ :=
    leastAux_is_least (fun r => decide (4 * s < (2 * r + 1) ^ 2)) (s + 1) 0 hex
  refine ⟨by simpa [roundSqrt] using hP, ?_⟩
  intro j hj
  have := hmin j (Nat.zero_le _) (by simpa [roundSqrt] using hj)
  simpa using this

/-- Uniqueness form of `roundSqrt_spec`, used to evaluate `roundSqrt` without
kernel reduction. -/
theorem roundSqrt_eq (s r : Nat) (h1 : 4 * s < (2 * r + 1) ^ 2)
    (h2 : ∀ j, j < r → ¬ 4 * s < (2 * j + 1) ^ 2) : roundSqrt s = r := by
  obtain ⟨hP, hmin⟩ := roundSqrt_spec s
  rcases Nat.lt_trichotomy (roundSqrt s) r with h | h | h
  · exact absurd hP (h2 _ h)
  · exact h
  · exact absurd h1 (hmin _ h)

/-- `roundSqrt` of a perfect square `d²` is `d`. -/
theorem roundSqrt_sq (d : Nat) : roundSqrt (d * d) = d := by
  refine roundSqrt_eq _ _ (by nlinarith) ?_
  intro j hj
  nlinarith

/-- `roundSqrt s` is exactly `⌊√s + 0.5⌋`, the TSPLIB rounded Euclidean
distance formula, over the reals. -/
theorem roundSqrt_cast_eq_floor (s : Nat) :
    (roundSqrt s : ℤ) = ⌊Real.sqrt (s : ℝ) + 1 / 2⌋ := by
  obtain ⟨hP, hmin⟩ := roundSqrt_spec s
  have hs0 : (0 : ℝ) ≤ (s : ℝ) := by positivity
  symm
  rw [Int.floor_eq_iff]
  constructor
  · rcases Nat.eq_zero_or_pos (roundSqrt s) with h0 | hpos
    · rw [h0]
      have := Real.sqrt_nonneg (s : ℝ)
      push_cast
      linarith
    · obtain ⟨t, ht⟩ : ∃ t, roundSqrt s = t + 1 := ⟨roundSqrt s - 1, by omega⟩
      have hm := hmin t (by omega)
      have hsq : (2 * t + 1) ^ 2 ≤ 4 * s := by omega
      have hsq2 : (2 * (t : ℝ) + 1) ^ 2 ≤ 4 * (s : ℝ) := by exact_mod_cast hsq
      have hx : (0 : ℝ) ≤ ((t : ℝ) + 1) - 1 / 2 := by
        have : (0 : ℝ) ≤ (t : ℝ) := by positivity
        linarith
      have hle : ((t : ℝ) + 1) - 1 / 2 ≤ Real.sqrt (s : ℝ) := by
        rw [Real.le_sqrt hx hs0]
        nlinarith
      rw [ht]
      push_cast
      linarith
  · have hP2 : 4 * (s : ℝ) < (2 * (roundSqrt s : ℝ) + 1) ^ 2 := by exact_mod_cast hP
    have hlt : Real.sqrt (s : ℝ) < (roundSqrt s : ℝ) + 1 / 2 := by
      rw [Real.sqrt_lt' (by positivity)]
      nlinarith
    push_cast
    linarith

/-- C8: For an EUC_2D instance, `distance(i,j)` equals
`⌊√((xi−xj)²+(yi−yj)²) + 0.5⌋` for all node indices, satisfies `d(i,i) = 0`
and `d(i,j) = d(j,i)`, and the concrete TSPLIB rounding checks hold:
(0,0)-(3,4) gives 5 and (0,0)-(1,1) gives 1. -/
theorem c8_euc2d_distance (inst : EucInst) (i j : Nat) :
    (inst.distance i j : ℤ) =
      ⌊Real.sqrt ((((inst.coords.getD i (0, 0)).1 : ℝ) - ((inst.coords.getD j (0, 0)).1 : ℝ)) ^ 2
          + (((inst.coords.getD i (0, 0)).2 : ℝ) - ((inst.coords.getD j (0, 0)).2 : ℝ)) ^ 2)
        + 1 / 2⌋ ∧
    inst.distance i i = 0 ∧
    inst.distance i j = inst.distance j i ∧
    EucInst.distance ⟨[(0, 0), (3, 4)]⟩ 0 1 = 5 ∧
    EucInst.distance ⟨[(0, 0), (1, 1)]⟩ 0 1 = 1 := by
  refine ⟨?_, by simp [EucInst.distance, EucInst.calculate_distance], ?_, by decide, by decide⟩
  · by_cases h : i = j
    · subst h
      simp only [EucInst.distance, EucInst.calculate_distance, if_pos rfl]
      have : (((inst.coords.getD i (0, 0)).1 : ℝ) - ((inst.coords.getD i (0, 0)).1 : ℝ)) ^ 2
          + (((inst.coords.getD i (0, 0)).2 : ℝ) - ((inst.coords.getD i (0, 0)).2 : ℝ)) ^ 2 = 0 := by
        ring
      rw [this, Real.sqrt_zero]
      symm
      rw [Int.floor_eq_iff] <;> norm_num
    · simp only [EucInst.distance, EucInst.calculate_distance, if_neg h]
      rw [roundSqrt_cast_eq_floor]
      congr 2
      have hnn : (0 : ℤ) ≤
          ((inst.coords.getD j (0, 0)).1 - (inst.coords.getD i (0, 0)).1) *
              ((inst.coords.getD j (0, 0)).1 - (inst.coords.getD i (0, 0)).1) +
            ((inst.coords.getD j (0, 0)).2 - (inst.coords.getD i (0, 0)).2) *
              ((inst.coords.getD j (0, 0)).2 - (inst.coords.getD i (0, 0)).2) :=
        add_nonneg (mul_self_nonneg _) (mul_self_nonneg _)
      have hcast := Int.toNat_of_nonneg hnn
      have : ((((inst.coords.getD j (0, 0)).1 - (inst.coords.getD i (0, 0)).1) *
              ((inst.coords.getD j (0, 0)).1 - (inst.coords.getD i (0, 0)).1) +
            ((inst.coords.getD j (0, 0)).2 - (inst.coords.getD i (0, 0)).2) *
              ((inst.coords.getD j (0, 0)).2 - (inst.coords.getD i (0, 0)).2)).toNat : ℝ) =
          (((inst.coords.getD j (0, 0)).1 : ℝ) - ((inst.coords.getD i (0, 0)).1 : ℝ)) *
              (((inst.coords.getD j (0, 0)).1 : ℝ) - ((inst.coords.getD i (0, 0)).1 : ℝ)) +
            (((inst.coords.getD j (0, 0)).2 : ℝ) - ((inst.coords.getD i (0, 0)).2 : ℝ)) *
              (((inst.coords.getD j (0, 0)).2 : ℝ) - ((inst.coords.getD i (0, 0)).2 : ℝ)) := by
        exact_mod_cast congrArg (fun z : ℤ => (z : ℝ)) hcast
      rw [this]
      ring
  · by_cases h : i = j
    · subst h; rfl
    · have h2 : ¬ j = i := fun h' => h h'.symm
      simp only [EucInst.distance, EucInst.calculate_distance, if_neg h, if_neg h2]
      exact congrArg (fun z : ℤ => ((roundSqrt z.toNat : ℕ) : ℤ)) (by ring)

/-- Instance used by the C4 witness: the unit square plus a spare node. -/
def instC4 : EucInst := ⟨[(0, 0), (1, 0), (1, 1), (0, 1), (5, 5)]⟩

/-- Solution used by the C4 witness. -/
def solC4 : Solution := ⟨[0, 1, 2, 3], [4]⟩

/-- C4: `evaluate_intra_route_edge_exchange` returns `None` exactly when the
cycle has fewer than 3 nodes, a position is out of range, the two positions
coincide, or the two removed edges are adjacent (share a node); otherwise it
returns the move with delta `d(a,c)+d(b,d) − d(a,b)−d(c,d)` for the edges
`(a,b)` and `(c,d)` starting at the two given positions. -/
theorem c4_edge_exchange_characterization (sol : Solution) (inst : EucInst)
    (cid : CycleId) (pos1 pos2 : Nat) :
    (evaluate_intra_route_edge_exchange sol inst cid pos1 pos2 = none ↔
      ((sol.get_cycle cid).length < 3 ∨ (sol.get_cycle cid).length ≤ pos1 ∨
        (sol.get_cycle cid).length ≤ pos2 ∨ pos1 = pos2 ∨
        (pos1 + 1) % (sol.get_cycle cid).length = pos2 ∨
        (pos2 + 1) % (sol.get_cycle cid).length = pos1)) ∧
    (¬ ((sol.get_cycle cid).length < 3 ∨ (sol.get_cycle cid).length ≤ pos1 ∨
        (sol.get_cycle cid).length ≤ pos2 ∨ pos1 = pos2 ∨
        (pos1 + 1) % (sol.get_cycle cid).length = pos2 ∨
        (pos2 + 1) % (sol.get_cycle cid).length = pos1) →
      evaluate_intra_route_edge_exchange sol inst cid pos1 pos2 =
        some ⟨Move.intraRouteEdgeExchange
            ((sol.get_cycle cid).getD pos1 0)
            ((sol.get_cycle cid).getD ((pos1 + 1) % (sol.get_cycle cid).length) 0)
            ((sol.get_cycle cid).getD pos2 0)
            ((sol.get_cycle cid).getD ((pos2 + 1) % (sol.get_cycle cid).length) 0) cid,
          inst.distance ((sol.get_cycle cid).getD pos1 0)
              ((sol.get_cycle cid).getD pos2 0)
            + inst.distance ((sol.get_cycle cid).getD ((pos1 + 1) % (sol.get_cycle cid).length) 0)
                ((sol.get_cycle cid).getD ((pos2 + 1) % (sol.get_cycle cid).length) 0)
            - inst.distance ((sol.get_cycle cid).getD pos1 0)
                ((sol.get_cycle cid).getD ((pos1 + 1) % (sol.get_cycle cid).length) 0)
            - inst.distance ((sol.get_cycle cid).getD pos2 0)
                ((sol.get_cycle cid).getD ((pos2 + 1) % (sol.get_cycle cid).length) 0)⟩) := by
  constructor
  · by_cases hc : ((sol.get_cycle cid).length < 3 ∨ (sol.get_cycle cid).length ≤ pos1 ∨
        (sol.get_cycle cid).length ≤ pos2 ∨ pos1 = pos2 ∨
        (pos1 + 1) % (sol.get_cycle cid).length = pos2 ∨
        (pos2 + 1) % (sol.get_cycle cid).length = pos1)
    · simp [evaluate_intra_route_edge_exchange, hc]
    · simp [evaluate_intra_route_edge_exchange, hc]
  · intro hc
    simp only [evaluate_intra_route_edge_exchange, if_neg hc]
    congr 1
    refine congrArg (EvaluatedMove.mk _) ?_
    ring

/-- Witness for C4: a concrete valid 2-opt evaluation on the unit square. -/
theorem c4_witness :
    evaluate_intra_route_edge_exchange solC4 instC4 .cycle1 0 2 =
      some ⟨Move.intraRouteEdgeExchange 0 1 2 3 .cycle1, 0⟩ := by
  have h := (c4_edge_exchange_characterization solC4 instC4 .cycle1 0 2).2 (by decide)
  exact h.trans (by decide)

/-- The cycle a node currently lies in, per `find_node`. -/
def cycleOf (sol : Solution) (v : Nat) : Option CycleId :=
  (sol.find_node v).map Prod.fst

/-- C9 counterexample input: an `IntraRouteEdgeExchange` whose `a` and `d`
fields name node 99, which appears in neither cycle; `b = 1` and `c = 2` are
in cycle 1, so `Move::apply` mutates the solution anyway. -/
theorem c9_counterexample :
    (Move.intraRouteEdgeExchange 99 1 2 99 .cycle1).apply ⟨[0, 1, 2, 3], [4]⟩ =
      ⟨[0, 2, 1, 3], [4]⟩ ∧
    (Move.intraRouteEdgeExchange 99 1 2 99 .cycle1).apply ⟨[0, 1, 2, 3], [4]⟩ ≠
      ⟨[0, 1, 2, 3], [4]⟩ ∧
    (99 ∈ ([0, 1, 2, 3] : List Nat) ∨ 99 ∈ ([4] : List Nat)) = False := by
  refine ⟨by decide, by decide, by decide⟩

/-- C9 (amended): `Move::apply` leaves the solution unchanged (and, being a
total function in this model, cannot panic) whenever the nodes it actually
looks up are not found as the move's tag requires: both `v1`, `v2` in opposite
cycles for `InterRouteExchange`; both `v1`, `v2` in the stated cycle for
`IntraRouteVertexExchange`; both `b`, `c` in the stated cycle for
`IntraRouteEdgeExchange` — the `a` and `d` fields of an edge exchange are
never consulted. -/
theorem c9_apply_noop_conditions (sol : Solution) :
    (∀ v1 v2, ¬ ((cycleOf sol v1 = some .cycle1 ∧ cycleOf sol v2 = some .cycle2) ∨
        (cycleOf sol v1 = some .cycle2 ∧ cycleOf sol v2 = some .cycle1)) →
      (Move.interRouteExchange v1 v2).apply sol = sol) ∧
    (∀ v1 v2 cy, ¬ (cycleOf sol v1 = some cy ∧ cycleOf sol v2 = some cy) →
      (Move.intraRouteVertexExchange v1 v2 cy).apply sol = sol) ∧
    (∀ a b c d cy, ¬ (cycleOf sol b = some cy ∧ cycleOf sol c = some cy) →
      (Move.intraRouteEdgeExchange a b c d cy).apply sol = sol) := by
  refine ⟨?_, ?_, ?_⟩
  · intro v1 v2 h
    rcases hv1 : sol.find_node v1 with _ | ⟨c1, p1⟩
    · simp [Move.apply, hv1]
    · rcases hv2 : sol.find_node v2 with _ | ⟨c2, p2⟩
      · cases c1 <;> simp [Move.apply, hv1, hv2]
      · cases c1 <;> cases c2 <;> simp only [Move.apply, hv1, hv2]
        · exact absurd (Or.inl ⟨by simp [cycleOf, hv1], by simp [cycleOf, hv2]⟩) h
        · exact absurd (Or.inr ⟨by simp [cycleOf, hv1], by simp [cycleOf, hv2]⟩) h
  · intro v1 v2 cy h
    rcases hv1 : sol.find_node v1 with _ | ⟨c1, p1⟩
    · simp [Move.apply, hv1]
    · rcases hv2 : sol.find_node v2 with _ | ⟨c2, p2⟩
      · simp [Move.apply, hv1, hv2]
      · have hcond : ¬ (c1 = cy ∧ c2 = cy) := by
          intro ⟨h1, h2⟩
          exact h ⟨by simp [cycleOf, hv1, h1], by simp [cycleOf, hv2, h2]⟩
        simp [Move.apply, hv1, hv2, hcond]
  · intro a b c d cy h
    rcases hvb : sol.find_node b with _ | ⟨cb, pb⟩
    · simp [Move.apply, hvb]
    · rcases hvc : sol.find_node c with _ | ⟨cc, pc⟩
      · simp [Move.apply, hvb, hvc]
      · have hcond : ¬ (cb = cy ∧ cc = cy) := by
          intro ⟨h1, h2⟩
          exact h ⟨by simp [cycleOf, hvb, h1], by simp [cycleOf, hvc, h2]⟩
        simp [Move.apply, hvb, hvc, hcond]

/-- Witness for C9's amended no-op conditions, at concrete mismatching moves. -/
theorem c9_witness :
    (Move.interRouteExchange 0 1).apply ⟨[0, 1], [2]⟩ = ⟨[0, 1], [2]⟩ ∧
    (Move.intraRouteVertexExchange 0 2 .cycle1).apply ⟨[0, 1], [2]⟩ = ⟨[0, 1], [2]⟩ ∧
    (Move.intraRouteEdgeExchange 7 0 5 7 .cycle1).apply ⟨[0, 1], [2]⟩ = ⟨[0, 1], [2]⟩ := by
  refine ⟨(c9_apply_noop_conditions ⟨[0, 1], [2]⟩).1 0 1 (by decide),
    (c9_apply_noop_conditions ⟨[0, 1], [2]⟩).2.1 0 2 .cycle1 (by decide),
    (c9_apply_noop_conditions ⟨[0, 1], [2]⟩).2.2 7 0 5 7 .cycle1 (by decide)⟩

/-- `LocalSearch::is_move_valid` from `algorithms/local_search/base.rs`
(lines 388-412). -/
def is_move_valid (sol : Solution) (m : Move) : Bool :=
  match m with
  | .interRouteExchange v1 v2 =>
    match sol.find_node v1, sol.find_node v2 with
    | some (c1, _), some (c2, _) => c1 ≠ c2
    | _, _ => false
  | .intraRouteVertexExchange v1 v2 cy =>
    match sol.find_node v1, sol.find_node v2 with
    | some (c1, _), some (c2, _) => c1 = cy ∧ c2 = cy
    | _, _ => false
  | .intraRouteEdgeExchange a b c d cy =>
    check_edge_in_cycle (sol.get_cycle cy) a b = some 1 ∧
      check_edge_in_cycle (sol.get_cycle cy) c d = some 1

/-- The `MoveListSteepest` pick of `solve_with_feedback`
(`algorithms/local_search/base.rs` lines 155-166): the first list entry with
negative delta that is still valid under the current solution. -/
def selectFirstValidMove (sol : Solution) (move_list : List EvaluatedMove) :
    Option EvaluatedMove :=
  move_list.find? (fun em => decide (em.delta < 0) && is_move_valid sol em.move_type)

/-- Spec-side notion: `(u, v)` is a directed edge of the closed tour `c`. -/
def specDirectedEdge (c : List Nat) (u v : Nat) : Prop :=
  ∃ i, i < c.length ∧ c.getD i 0 = u ∧ c.getD ((i + 1) % c.length) 0 = v

/-- Spec-side move-validity contract (spec §4.2, MoveListSteepest). -/
def specValid (sol : Solution) (m : Move) : Prop :=
  match m with
  | .interRouteExchange v1 v2 =>
    ∃ c1 c2, cycleOf sol v1 = some c1 ∧ cycleOf sol v2 = some c2 ∧ c1 ≠ c2
  | .intraRouteVertexExchange v1 v2 cy =>
    cycleOf sol v1 = some cy ∧ cycleOf sol v2 = some cy
  | .intraRouteEdgeExchange a b c d cy =>
    specDirectedEdge (sol.get_cycle cy) a b ∧ specDirectedEdge (sol.get_cycle cy) c d

/-- `dirEdgeB` tests the directed-edge property. -/
theorem dirEdgeB_eq_true_iff (c : List Nat) (u v i : Nat) :
    dirEdgeB c u v i = true ↔
      (c.getD i 0 = u ∧ c.getD ((i + 1) % c.length) 0 = v) := by
  simp [dirEdgeB]

/-- The modelled `check_edge_in_cycle` returns `some 1` exactly on directed
edges. -/
theorem check_edge_some_one_iff (c : List Nat) (u v : Nat) :
    check_edge_in_cycle c u v = some 1 ↔ specDirectedEdge c u v := by
  unfold check_edge_in_cycle
  rcases hf : (List.range c.length).find? (dirEdgeB c u v) with _ | ⟨i⟩
  · simp only [hf]
    rcases hg : (List.range c.length).find? (dirEdgeB c v u) with _ | ⟨j⟩
    · simp only [hg]
      constructor
      · intro h
        exact absurd h (by simp)
      · intro ⟨i, hi, hu, hv⟩
        have := List.find?_eq_none.mp hf i (List.mem_range.mpr hi)
        exact absurd ((dirEdgeB_eq_true_iff c u v i).mpr ⟨hu, hv⟩) this
    · simp only [hg]
      constructor
      · intro h
        exact absurd h (by simp)
      · intro ⟨i, hi, hu, hv⟩
        have := List.find?_eq_none.mp hf i (List.mem_range.mpr hi)
        exact absurd ((dirEdgeB_eq_true_iff c u v i).mpr ⟨hu, hv⟩) this
  · simp only [hf]
    constructor
    · intro _
      have hmem := List.mem_of_find?_eq_some hf
      have hp := (dirEdgeB_eq_true_iff c u v i).mp (List.find?_some hf)
      exact ⟨i, List.mem_range.mp hmem, hp.1, hp.2⟩
    · intro _
      trivial

/-- On a list whose entries all have negative delta (the move-list invariant),
the pick reduces to "first valid entry". -/
theorem select_eq_find_valid (sol : Solution) :
    ∀ ml : List EvaluatedMove, (∀ em ∈ ml, em.delta < 0) →
      selectFirstValidMove sol ml = ml.find? (fun em => is_move_valid sol em.move_type) := by
  intro ml
  induction ml with
  | nil => intro _; rfl
  | cons x xs ih =>
    intro hneg
    have hx : decide (x.delta < 0) = true := by
      simp [hneg x (by simp)]
    rcases hvx : is_move_valid sol x.move_type with _ | _
    · simp only [selectFirstValidMove, List.find?_cons, hx, hvx, Bool.true_and]
      exact ih (fun em hm => hneg em (by simp [hm]))
    · simp only [selectFirstValidMove, List.find?_cons, hx, hvx, Bool.true_and]

/-- On a delta-sorted all-negative list, the first valid entry has minimal
delta among the valid entries. -/
theorem select_min_delta (sol : Solution) :
    ∀ ml : List EvaluatedMove, (∀ em ∈ ml, em.delta < 0) →
      List.Pairwise (fun x y => x.delta ≤ y.delta) ml →
      ∀ em, selectFirstValidMove sol ml = some em →
        ∀ x ∈ ml, is_move_valid sol x.move_type = true → em.delta ≤ x.delta := by
  intro ml
  induction ml with
  | nil =>
    intro _ _ em hsel
    simp [selectFirstValidMove] at hsel
  | cons y ys ih =>
    intro hneg hpair em hsel x hx hvalid
    have hy : decide (y.delta < 0) = true := by
      simp [hneg y (by simp)]
    rcases List.pairwise_cons.mp hpair with ⟨hle, hpair'⟩
    rcases hvy : is_move_valid sol y.move_type with _ | _
    · simp only [selectFirstValidMove, List.find?_cons, hy, hvy, Bool.true_and] at hsel
      rcases List.mem_cons.mp hx with h | h
      · subst h
        rw [hvy] at hvalid
        exact absurd hvalid (by simp)
      · exact ih (fun e he => hneg e (by simp [he])) hpair' em hsel x h hvalid
    · simp only [selectFirstValidMove, List.find?_cons, hy, hvy, Bool.true_and] at hsel
      have hem : em = y := by
        injection hsel with h
        exact h.symm
      subst hem
      rcases List.mem_cons.mp hx with h | h
      · subst h; exact le_refl _
      · exact hle x h

/-- C5: in every `MoveListSteepest` iteration, the applied move is the first
valid entry of the (all-negative, delta-sorted) move list, where validity is:
inter-exchange iff the nodes are in different cycles; intra-vertex iff both
nodes are in the stated cycle; intra-edge iff both `(a,b)` and `(c,d)` are
currently directed edges of the stated cycle.  On a sorted list the selected
move moreover has minimal delta among the valid entries. -/
theorem c5_move_list_selection (sol : Solution) (ml : List EvaluatedMove) (m : Move) :
    (is_move_valid sol m = true ↔ specValid sol m) ∧
    ((∀ em ∈ ml, em.delta < 0) →
      selectFirstValidMove sol ml = ml.find? (fun em => is_move_valid sol em.move_type)) ∧
    ((∀ em ∈ ml, em.delta < 0) →
      List.Pairwise (fun x y => x.delta ≤ y.delta) ml →
      ∀ em, selectFirstValidMove sol ml = some em →
        ∀ x ∈ ml, is_move_valid sol x.move_type = true → em.delta ≤ x.delta) := by
  refine ⟨?_, select_eq_find_valid sol ml, select_min_delta sol ml⟩
  cases m with
  | interRouteExchange v1 v2 =>
    rcases hv1 : sol.find_node v1 with _ | ⟨c1, p1⟩
    · simp [is_move_valid, specValid, cycleOf, hv1]
    · rcases hv2 : sol.find_node v2 with _ | ⟨c2, p2⟩
      · simp [is_move_valid, specValid, cycleOf, hv1, hv2]
      · simp [is_move_valid, specValid, cycleOf, hv1, hv2]
  | intraRouteVertexExchange v1 v2 cy =>
    rcases hv1 : sol.find_node v1 with _ | ⟨c1, p1⟩
    · simp [is_move_valid, specValid, cycleOf, hv1]
    · rcases hv2 : sol.find_node v2 with _ | ⟨c2, p2⟩
      · simp [is_move_valid, specValid, cycleOf, hv1, hv2]
      · simp [is_move_valid, specValid, cycleOf, hv1, hv2]
  | intraRouteEdgeExchange a b c d cy =>
    simp [is_move_valid, specValid, check_edge_some_one_iff]

/-- Solution used by the C5 witness. -/
def solC5 : Solution := ⟨[0, 1, 2], [3, 4]⟩

/-- Move list used by the C5 witness: sorted ascending by delta; the first
entry is invalid (both nodes in cycle 1), the second and third are valid. -/
def mlC5 : List EvaluatedMove :=
  [⟨.interRouteExchange 0 1, -5⟩, ⟨.interRouteExchange 0 3, -2⟩,
    ⟨.interRouteExchange 1 4, -1⟩]

/-- Witness for C5 at a concrete solution and sorted move list. -/
theorem c5_witness :
    selectFirstValidMove solC5 mlC5 = some ⟨.interRouteExchange 0 3, -2⟩ ∧
    specValid solC5 (.interRouteExchange 0 3) ∧
    EvaluatedMove.delta ⟨.interRouteExchange 0 3, -2⟩ ≤
      EvaluatedMove.delta ⟨.interRouteExchange 1 4, -1⟩ := by
  have hsel : selectFirstValidMove solC5 mlC5 = some ⟨.interRouteExchange 0 3, -2⟩ :=
    ((c5_move_list_selection solC5 mlC5 (.interRouteExchange 0 3)).2.1 (by decide)).trans
      (by decide)
  refine ⟨hsel,
    (c5_move_list_selection solC5 mlC5 (.interRouteExchange 0 3)).1.mp (by decide), ?_⟩
  exact (c5_move_list_selection solC5 mlC5 (.interRouteExchange 0 3)).2.2 (by decide)
    (by decide) ⟨.interRouteExchange 0 3, -2⟩ hsel ⟨.interRouteExchange 1 4, -1⟩
    (by decide) (by decide)

/-- The worst-member scan of `Hae::solve_timed` (`algorithms/hae.rs` lines
110-118): first index attaining the maximum population cost. -/
def findWorstAux : List (Solution × Int) → Nat → Nat → Int → Nat × Int
  | [], _, wIdx, wCost => (wIdx, wCost)
  | x :: xs, idx, wIdx, wCost =>
    if wCost < x.2 then findWorstAux xs (idx + 1) idx x.2
    else findWorstAux xs (idx + 1) wIdx wCost

def findWorst (pop : List (Solution × Int)) : Nat × Int :=
  match pop with
  | [] => (0, 0)
  | x :: xs => findWorstAux xs 1 0 x.2

/-- The similarity gate of `Hae::solve_timed` (line 108). -/
def tooSimilar (pop : List (Solution × Int)) (c minDiff : Int) : Bool :=
  pop.any (fun m => |c - m.2| < minDiff)

/-- The replacement step of `Hae::solve_timed` (lines 120-130): returns the
new population and the new best cost. -/
def haeReplacement (pop : List (Solution × Int)) (child : Solution)
    (childCost bestCost minDiff : Int) : List (Solution × Int) × Int :=
  if childCost < bestCost then
    (pop.set (findWorst pop).1 (child, childCost), childCost)
  else if childCost < (findWorst pop).2 ∧ ¬ tooSimilar pop childCost minDiff then
    (pop.set (findWorst pop).1 (child, childCost), bestCost)
  else (pop, bestCost)

theorem tooSimilar_iff (pop : List (Solution × Int)) (c md : Int) :
    tooSimilar pop c md = true ↔ ∃ m ∈ pop, |m.2 - c| < md := by
  simp only [tooSimilar, List.any_eq_true, decide_eq_true_eq]
  constructor
  · intro ⟨m, hm, h⟩; exact ⟨m, hm, by rwa [abs_sub_comm] at h⟩
  · intro ⟨m, hm, h⟩; exact ⟨m, hm, by rwa [abs_sub_comm] at h⟩

theorem findWorstAux_spec (d : Solution × Int) :
    ∀ (xs full : List (Solution × Int)) (idx wIdx : Nat) (wCost : Int),
      full.drop idx = xs → wIdx < full.length → (full.getD wIdx d).2 = wCost →
      (findWorstAux xs idx wIdx wCost).1 < full.length ∧
        (full.getD (findWorstAux xs idx wIdx wCost).1 d).2 =
          (findWorstAux xs idx wIdx wCost).2 ∧
        wCost ≤ (findWorstAux xs idx wIdx wCost).2 ∧
        ∀ m ∈ xs, m.2 ≤ (findWorstAux xs idx wIdx wCost).2 := by
  intro xs
  induction xs with
  | nil =>
    intro full idx wIdx wCost hdrop hlt hcost
    exact ⟨hlt, hcost, le_refl _, by simp⟩
  | cons x xs ih =>
    intro full idx wIdx wCost hdrop hlt hcost
    have hidx : idx < full.length := by
      by_contra h
      rw [List.drop_eq_nil_of_le (by omega)] at hdrop
      exact List.cons_ne_nil x xs hdrop.symm
    have hget : full.getD idx d = x := by
      have h0 : full[idx]? = (full.drop idx)[0]? := by
        rw [List.getElem?_drop]
        norm_num
      rw [hdrop] at h0
      simp only [List.getElem?_cons_zero] at h0
      simp [List.getD, h0]
    have hdrop' : full.drop (idx + 1) = xs := by
      have := List.tail_drop full idx
      rw [hdrop] at this
      simpa using this.symm
    by_cases hx : wCost < x.2
    · have hstep : findWorstAux (x :: xs) idx wIdx wCost = findWorstAux xs (idx + 1) idx x.2 := by
        simp [findWorstAux, hx]
      obtain ⟨h1, h2, h3, h4⟩ := ih full (idx + 1) idx x.2 hdrop' hidx (by rw [hget])
      rw [hstep]
      refine ⟨h1, h2, by omega, ?_⟩
      intro m hm
      rcases List.mem_cons.mp hm with h | h
      · subst h; exact h3
      · exact h4 m h
    · have hstep : findWorstAux (x :: xs) idx wIdx wCost = findWorstAux xs (idx + 1) wIdx wCost := by
        simp [findWorstAux, hx]
      obtain ⟨h1, h2, h3, h4⟩ := ih full (idx + 1) wIdx wCost hdrop' hlt hcost
      rw [hstep]
      refine ⟨h1, h2, h3, ?_⟩
      intro m hm
      rcases List.mem_cons.mp hm with h | h
      · subst h; omega
      · exact h4 m h

/-- `findWorst` returns an in-range index attaining the maximum cost. -/
theorem findWorst_spec (pop : List (Solution × Int)) (h : pop ≠ []) :
    (findWorst pop).1 < pop.length ∧
      (pop.getD (findWorst pop).1 (⟨[], []⟩, 0)).2 = (findWorst pop).2 ∧
      ∀ m ∈ pop, m.2 ≤ (findWorst pop).2 := by
  match pop, h with
  | x :: xs, _ =>
    have hspec := findWorstAux_spec (⟨[], []⟩, 0) xs (x :: xs) 1 0 x.2
      (by simp) (by simp) (by simp [List.getD])
    obtain ⟨h1, h2, h3, h4⟩ := hspec
    refine ⟨h1, h2, ?_⟩
    intro m hm
    rcases List.mem_cons.mp hm with hh | hh
    · subst hh; exact h3
    · exact h4 m hh

/-- C6: in every HAE generation, with `c` the child's cost, `best` the tracked
best cost and `w` a maximum-cost member: the child replaces `w` when
`c < best` (updating best to `c`); otherwise it replaces `w` iff `c < c_w` and
no member is within `min_diff` of `c`; otherwise the population and best are
unchanged. -/
theorem c6_hae_replacement (pop : List (Solution × Int)) (child : Solution)
    (c best minDiff : Int) (h : pop ≠ []) :
    ((findWorst pop).1 < pop.length ∧
      (pop.getD (findWorst pop).1 (⟨[], []⟩, 0)).2 = (findWorst pop).2 ∧
      ∀ m ∈ pop, m.2 ≤ (findWorst pop).2) ∧
    (c < best →
      haeReplacement pop child c best minDiff =
        (pop.set (findWorst pop).1 (child, c), c)) ∧
    (¬ c < best → c < (findWorst pop).2 → ¬ (∃ m ∈ pop, |m.2 - c| < minDiff) →
      haeReplacement pop child c best minDiff =
        (pop.set (findWorst pop).1 (child, c), best)) ∧
    (¬ c < best → ¬ (c < (findWorst pop).2 ∧ ¬ ∃ m ∈ pop, |m.2 - c| < minDiff) →
      haeReplacement pop child c best minDiff = (pop, best)) := by
  refine ⟨findWorst_spec pop h, ?_, ?_, ?_⟩
  · intro hlt
    simp [haeReplacement, hlt]
  · intro hge hworse hsim
    have hs : ¬ tooSimilar pop c minDiff = true := fun hc => hsim ((tooSimilar_iff pop c minDiff).mp hc)
    simp only [haeReplacement, if_neg hge]
    rw [if_pos ⟨hworse, hs⟩]
  · intro hge hcond
    simp only [haeReplacement, if_neg hge]
    rw [if_neg]
    intro ⟨h1, h2⟩
    exact hcond ⟨h1, fun hex => h2 ((tooSimilar_iff pop c minDiff).mpr hex)⟩

/-- Population used by the C6 witness (costs 100, 105, 110; spec scenario 6). -/
def popC6 : List (Solution × Int) := [(⟨[0], []⟩, 100), (⟨[1], []⟩, 105), (⟨[2], []⟩, 110)]

/-- Child solution used by the C6 witness. -/
def childC6 : Solution := ⟨[9], []⟩

/-- Witness for C6: a child of cost 95 replaces the worst member and updates
best; a child of cost 102 (within `min_diff = 10` of the member of cost 100)
is discarded; the worst member attains the maximum cost 110. -/
theorem c6_witness :
    haeReplacement popC6 childC6 95 100 10 = (popC6.set 2 (childC6, 95), 95) ∧
    haeReplacement popC6 childC6 102 100 10 = (popC6, 100) ∧
    ∀ m ∈ popC6, m.2 ≤ 110 := by
  have hspec := c6_hae_replacement popC6 childC6 95 100 10 (by decide)
  have hspec2 := c6_hae_replacement popC6 childC6 102 100 10 (by decide)
  refine ⟨(hspec.2.1 (by decide)).trans (by decide),
    hspec2.2.2.2 (by decide) (by decide), ?_⟩
  intro m hm
  have h110 : (findWorst popC6).2 = 110 := by decide
  have := hspec.1.2.2 m hm
  omega

theorem distance_nonneg (inst : EucInst) (i j : Nat) : 0 ≤ inst.distance i j := by
  unfold EucInst.distance EucInst.calculate_distance
  by_cases h : i = j
  · simp [h]
  · simp only [if_neg h]
    positivity

theorem cycleCost_nonneg (inst : EucInst) (c : List Nat) : 0 ≤ cycleCost inst c := by
  unfold cycleCost
  apply List.sum_nonneg
  intro x hx
  rcases List.mem_map.mp hx with ⟨i, _, hi⟩
  rw [← hi]
  exact distance_nonneg inst _ _

theorem calculate_cost_nonneg (s : Solution) (inst : EucInst) :
    0 ≤ s.calculate_cost inst := by
  unfold Solution.calculate_cost
  have h1 := cycleCost_nonneg inst s.cycle1
  have h2 := cycleCost_nonneg inst s.cycle2
  omega

/-- The local-search loop of `LocalSearch::solve_with_feedback`
(`algorithms/local_search/base.rs` lines 111-236), with explicit fuel
(`none` = fuel exhausted).  The move choice — full enumeration for
Steepest/Greedy, candidate pruning, or the move-list scan, together with the
RNG and the move-list bookkeeping — is abstracted as `choose` over an
arbitrary strategy state `σ`, covering all four search variants.  One
iteration: pick a move (`none` ends the loop at a local optimum), apply it,
and correct the running cost to the full recomputation (the source warns and
snaps `current_cost` to `real_cost_after_apply` on mismatch, so the running
cost after an iteration is always the recomputed cost); the safety stop ends
the loop when that cost fails to decrease. -/
def lsLoopFuel {σ : Type} (choose : σ → Solution → Option (EvaluatedMove × σ))
    (inst : EucInst) : Nat → σ → Solution → Option Solution
  | 0, _, _ => none
  | fuel + 1, st, sol =>
    match choose st sol with
    | none => some sol
    | some (em, st') =>
      let sol' := em.move_type.apply sol
      if sol.calculate_cost inst ≤ sol'.calculate_cost inst then some sol'
      else lsLoopFuel choose inst fuel st' sol'

theorem lsLoopFuel_enough {σ : Type} (choose : σ → Solution → Option (EvaluatedMove × σ))
    (inst : EucInst) :
    ∀ (fuel : Nat) (st : σ) (sol : Solution),
      (sol.calculate_cost inst).toNat < fuel →
      ∃ r, lsLoopFuel choose inst fuel st sol = some r := by
  intro fuel
  induction fuel with
  | zero => intro st sol h; omega
  | succ fuel ih =>
    intro st sol h
    rcases hc : choose st sol with _ | ⟨em, st'⟩
    · exact ⟨sol, by simp [lsLoopFuel, hc]⟩
    · by_cases hcost : sol.calculate_cost inst ≤
          (em.move_type.apply sol).calculate_cost inst
      · exact ⟨em.move_type.apply sol, by simp [lsLoopFuel, hc, hcost]⟩
      · have hnn := calculate_cost_nonneg (em.move_type.apply sol) inst
        have hfuel : ((em.move_type.apply sol).calculate_cost inst).toNat < fuel := by
          omega
        obtain ⟨r, hr⟩ := ih st' (em.move_type.apply sol) hfuel
        refine ⟨r, ?_⟩
        simp only [lsLoopFuel, hc, if_neg hcost]
        exact hr

/-- C7: the local-search loop terminates for every variant and every start:
since the corrected running cost is a non-negative integer that strictly
decreases on every iteration that does not stop, `cost(start) + 1` iterations
always suffice, whatever strategy (and randomness) `choose` encodes. -/
theorem c7_local_search_terminates {σ : Type}
    (choose : σ → Solution → Option (EvaluatedMove × σ)) (inst : EucInst)
    (st : σ) (sol : Solution) :
    ∃ r, lsLoopFuel choose inst ((sol.calculate_cost inst).toNat + 1) st sol = some r :=
  lsLoopFuel_enough choose inst _ st sol (by omega)

/-- Evaluate `distance` when the squared displacement is a perfect square. -/
theorem distance_eq_of_sq (inst : EucInst) (i j d : Nat) (xi yi xj yj : Int)
    (hij : i ≠ j)
    (hi : inst.coords.getD i (0, 0) = (xi, yi))
    (hj : inst.coords.getD j (0, 0) = (xj, yj))
    (hd : (xj - xi) * (xj - xi) + (yj - yi) * (yj - yi) = (d : Int) * d) :
    inst.distance i j = d := by
  simp only [EucInst.distance, EucInst.calculate_distance, if_neg hij, hi, hj]
  rw [hd]
  have h1 : ((d : Int) * d).toNat = d * d := by
    rw [← Nat.cast_mul, Int.toNat_natCast]
  rw [h1, roundSqrt_sq]

/-- The iteration structure of `Msls::solve_with_feedback`
(`algorithms/msls.rs` lines 36-98): fold over the solutions returned by the
per-iteration local-search runs (supplied as an oracle list, one entry per
configured iteration), tracking `best_solution : Option` (initially `None`)
and `best_cost` (initially `i32::MAX`), updating on strict improvement;
returns `best_solution` (`none` models the failing `expect`). -/
def mslsAux (inst : EucInst) : List Solution → Option Solution → Int → Option Solution
  | [], best, _ => best
  | r :: rs, best, bestCost =>
    if r.calculate_cost inst < bestCost then
      mslsAux inst rs (some r) (r.calculate_cost inst)
    else mslsAux inst rs best bestCost

def msls (inst : EucInst) (runs : List Solution) : Option Solution :=
  mslsAux inst runs none 2147483647

/-- The five-node instance of the C10 counterexample: cycle-1 triangle of
cost 11 plus a far vertical pair at distance 1073741818, so the best two-cycle
partition costs exactly `i32::MAX = 2147483647`. -/
def instC10 : EucInst := ⟨[(0, 0), (0, 1), (5, 0), (20, 0), (20, 1073741818)]⟩

/-- A solution of instC10 whose cost is exactly 2147483647. -/
def solC10 : Solution := ⟨[0, 1, 2], [3, 4]⟩

theorem costC10 : solC10.calculate_cost instC10 = 2147483647 := by
  have d01 : instC10.distance 0 1 = 1 := by decide
  have d12 : instC10.distance 1 2 = 5 := by decide
  have d20 : instC10.distance 2 0 = 5 := by decide
  have d34 : instC10.distance 3 4 = 1073741818 :=
    distance_eq_of_sq instC10 3 4 1073741818 20 0 20 1073741818 (by decide)
      (by decide) (by decide) (by norm_num)
  have d43 : instC10.distance 4 3 = 1073741818 :=
    distance_eq_of_sq instC10 4 3 1073741818 20 1073741818 20 0 (by decide)
      (by decide) (by decide) (by norm_num)
  have hc1 : cycleCost instC10 [0, 1, 2] = 11 := by
    simp [cycleCost, List.range_succ, d01, d12, d20]
  have hc2 : cycleCost instC10 [3, 4] = 2147483636 := by
    simp [cycleCost, List.range_succ, d34, d43]
  show cycleCost instC10 [0, 1, 2] + cycleCost instC10 [3, 4] = 2147483647
  omega

/-- C10 counterexample: a single MSLS run (iterations = 1 ≥ 1) whose local
optimum costs exactly `i32::MAX`; the strict comparison `c < best_cost` never
fires, `best_solution` stays `None`, and the `expect` panics. -/
theorem c10_counterexample :
    msls instC10 [solC10] = none ∧ 1 ≤ [solC10].length := by
  refine ⟨?_, by simp⟩
  simp [msls, mslsAux, costC10]

theorem mslsAux_some_spec (inst : EucInst) :
    ∀ (runs : List Solution) (b : Solution) (bc : Int),
      b.calculate_cost inst = bc →
      ∃ s, mslsAux inst runs (some b) bc = some s ∧ (s = b ∨ s ∈ runs) ∧
        s.calculate_cost inst ≤ bc ∧
        ∀ r ∈ runs, s.calculate_cost inst ≤ r.calculate_cost inst := by
  intro runs
  induction runs with
  | nil =>
    intro b bc hb
    exact ⟨b, rfl, Or.inl rfl, le_of_eq hb, by simp⟩
  | cons r rs ih =>
    intro b bc hb
    by_cases hr : r.calculate_cost inst < bc
    · obtain ⟨s, hs, hmem, hle, hall⟩ := ih r (r.calculate_cost inst) rfl
      refine ⟨s, by simpa [mslsAux, hr] using hs, ?_, by omega, ?_⟩
      · rcases hmem with h | h
        · exact Or.inr (by simp [h])
        · exact Or.inr (by simp [h])
      · intro x hx
        rcases List.mem_cons.mp hx with h | h
        · subst h; exact hle
        · exact hall x h
    · obtain ⟨s, hs, hmem, hle, hall⟩ := ih b bc hb
      refine ⟨s, by simpa [mslsAux, hr] using hs,
        hmem.imp (fun h => h) (fun h => by simp [h]), hle, ?_⟩
      intro x hx
      rcases List.mem_cons.mp hx with h | h
      · subst h; omega
      · exact hall x h

theorem mslsAux_none_progress (inst : EucInst) :
    ∀ (runs : List Solution) (bc : Int),
      (∃ r ∈ runs, r.calculate_cost inst < bc) →
      ∃ s, mslsAux inst runs none bc = some s ∧ s ∈ runs ∧
        ∀ r ∈ runs, s.calculate_cost inst ≤ r.calculate_cost inst := by
  intro runs
  induction runs with
  | nil =>
    intro bc h
    obtain ⟨r, hr, _⟩ := h
    exact absurd hr (by simp)
  | cons r rs ih =>
    intro bc hex
    by_cases hr : r.calculate_cost inst < bc
    · obtain ⟨s, hs, hmem, hle, hall⟩ := mslsAux_some_spec inst rs r (r.calculate_cost inst) rfl
      refine ⟨s, by simpa [mslsAux, hr] using hs, ?_, ?_⟩
      · rcases hmem with h | h
        · simp [h]
        · simp [h]
      · intro x hx
        rcases List.mem_cons.mp hx with h | h
        · subst h; exact hle
        · exact hall x h
    · obtain ⟨w, hw, hwc⟩ := hex
      have hw' : w ∈ rs := by
        rcases List.mem_cons.mp hw with h | h
        · subst h; omega
        · exact h
      obtain ⟨s, hs, hmem, hall⟩ := ih bc ⟨w, hw', hwc⟩
      refine ⟨s, by simpa [mslsAux, hr] using hs, by simp [hmem], ?_⟩
      intro x hx
      rcases List.mem_cons.mp hx with h | h
      · subst h
        have h1 := hall w hw'
        omega
      · exact hall x h

/-- C10 (amended): MSLS panics when iterations = 0 (empty run list); with at
least one run whose cost is below `i32::MAX` it returns a run of minimum cost;
but when every run costs exactly `i32::MAX` (possible: `c10_counterexample`)
the `expect` fails even though iterations ≥ 1. -/
theorem c10_msls_amended (inst : EucInst) (runs : List Solution)
    (h : ∃ r ∈ runs, r.calculate_cost inst < 2147483647) :
    msls inst [] = none ∧
    ∃ s, msls inst runs = some s ∧ s ∈ runs ∧
      ∀ r ∈ runs, s.calculate_cost inst ≤ r.calculate_cost inst :=
  ⟨rfl, mslsAux_none_progress inst runs 2147483647 h⟩

/-- Instance used by the C10 witness. -/
def instW10 : EucInst := ⟨[(0, 0), (3, 4)]⟩

/-- Two runs for the C10 witness: costs 10 and 0. -/
def solW10a : Solution := ⟨[0, 1], []⟩

def solW10b : Solution := ⟨[0], [1]⟩

/-- Witness for C10's amended claim at two concrete runs. -/
theorem c10_witness :
    msls instW10 [] = none ∧ msls instW10 [solW10a, solW10b] = some solW10b := by
  obtain ⟨hnil, s, hs, hmem, hmin⟩ := c10_msls_amended instW10 [solW10a, solW10b]
    ⟨solW10b, by decide, by decide⟩
  refine ⟨hnil, ?_⟩
  have hs_eq : s = solW10b := by
    have hmem' : s = solW10a ∨ s = solW10b := by simpa using hmem
    rcases hmem' with h | h
    · exfalso
      have h1 := hmin solW10b (by simp)
      rw [h] at h1
      have h10 : solW10a.calculate_cost instW10 = 10 := by decide
      have h0 : solW10b.calculate_cost instW10 = 0 := by decide
      omega
    · exact h
  rw [hs_eq] at hs
  exact hs

/-- The child-processing step of an HAE generation (`algorithms/hae.rs` lines
93-104).  In the source, when `with_local` holds the binding is
`child = self.base_local_search.solve_with_feedback(instance, …)`:
`solve_with_feedback` takes only the instance and a progress callback, so its
result (`lsResult` here) is a function of the instance and the RNG alone and
does not depend on the recombined child, which is discarded. -/
def haeChildStep (with_local : Bool) (recombined lsResult : Solution) : Solution :=
  if with_local then lsResult else recombined

/-- C2 is refuted by the code: with `with_local = true` the solution whose
cost is compared against the population is `lsResult` — an LS run started
from a fresh initial solution — independent of the recombined offspring: two
different offspring give the same compared solution.  (The spec and the
source's own progress message "LS on child" say the LS should be applied to
the child.) -/
theorem c2_child_discarded (recombined1 recombined2 lsResult : Solution) :
    haeChildStep true recombined1 lsResult = lsResult ∧
    haeChildStep true recombined1 lsResult = haeChildStep true recombined2 lsResult ∧
    haeChildStep false recombined1 lsResult = recombined1 :=
  ⟨rfl, rfl, rfl⟩

/-- Whitespace per the `\s` character class on a single header line. -/
def isWs (ch : Char) : Bool := ch = ' ' ∨ ch = '\t' ∨ ch = '\r'

/-- `[A-Za-z_]`, the keyword character class of `KEYWORD_RE`. -/
def isKeyChar (ch : Char) : Bool :=
  ('A' ≤ ch ∧ ch ≤ 'Z') ∨ ('a' ≤ ch ∧ ch ≤ 'z') ∨ ch = '_'

/-- `\d`. -/
def isDigitCh (ch : Char) : Bool := '0' ≤ ch ∧ ch ≤ '9'

/-- `str::trim` on a line. -/
def trimChars (l : List Char) : List Char :=
  ((l.dropWhile isWs).reverse.dropWhile isWs).reverse

/-- Whitespace-separated tokens of a line. -/
def wordsAux : List Char → List Char → List (List Char)
  | [], acc => if acc.isEmpty then [] else [acc.reverse]
  | ch :: rest, acc =>
    if isWs ch then
      if acc.isEmpty then wordsAux rest [] else acc.reverse :: wordsAux rest []
    else wordsAux rest (ch :: acc)

def wordsOf (l : List Char) : List (List Char) := wordsAux l []

/-- `KEYWORD_RE = ^([A-Za-z_]+)\s*:\s*(.+)$` applied to a trimmed line,
returning the keyword and the (trimmed) value. -/
def keywordSplit (l : List Char) : Option (List Char × List Char) :=
  let key := l.takeWhile isKeyChar
  let rest := (l.dropWhile isKeyChar).dropWhile isWs
  if key.isEmpty then none
  else
    match rest with
    | ':' :: rest2 =>
      let value := rest2.dropWhile isWs
      if value.isEmpty then none else some (key, value)
    | _ => none

/-- `NODE_COORD_RE = ^\s*(\d+)\s+(\S+)\s+(\S+)\s*$` applied to a trimmed
line: exactly three whitespace-separated tokens, the first all digits;
returns the two coordinate tokens (the index capture is never read by the
source). -/
def nodeCoordMatch (l : List Char) : Option (List Char × List Char) :=
  match wordsOf l with
  | [f1, f2, f3] =>
    if f1.isEmpty = false ∧ f1.all isDigitCh then some (f2, f3) else none
  | _ => none

def digitsToNat (l : List Char) : Nat :=
  l.foldl (fun acc ch => 10 * acc + (ch.toNat - 48)) 0

/-- Model of `str::parse::<f64>` restricted to the integer literals the
claims exercise: an optional sign followed by digits; anything else is a
parse failure (the real parser accepts more shapes, none of which the claims
depend on — the claims never inspect coordinate values). -/
def parseIntTok (l : List Char) : Option Int :=
  match l with
  | '-' :: rest =>
    if rest.isEmpty = false ∧ rest.all isDigitCh then some (-(digitsToNat rest : Int))
    else none
  | _ =>
    if l.isEmpty = false ∧ l.all isDigitCh then some ((digitsToNat l : Int)) else none

/-- Model of `str::parse::<usize>`: optional `+` then digits. -/
def parseNatTok (l : List Char) : Option Nat :=
  match l with
  | '+' :: rest =>
    if rest.isEmpty = false ∧ rest.all isDigitCh then some (digitsToNat rest) else none
  | _ =>
    if l.isEmpty = false ∧ l.all isDigitCh then some (digitsToNat l) else none

/-- `EdgeWeightType` from `tsplib.rs`. -/
inductive EdgeWeightType where
  | explicitW : EdgeWeightType
  | euc2d : EdgeWeightType
  | ceil2d : EdgeWeightType
  | geo : EdgeWeightType
  | att : EdgeWeightType
deriving DecidableEq, Repr

/-- The `EDGE_WEIGHT_TYPE` value match of `TsplibInstance::from_file`
(lines 86-95): five recognized strings, anything else is the
`Unsupported EDGE_WEIGHT_TYPE` format error. -/
def parseEwt (v : List Char) : Option EdgeWeightType :=
  if v = "EXPLICIT".toList then some .explicitW
  else if v = "EUC_2D".toList then some .euc2d
  else if v = "CEIL_2D".toList then some .ceil2d
  else if v = "GEO".toList then some .geo
  else if v = "ATT".toList then some .att
  else none

/-- The error kinds of `TsplibError` (`tsplib.rs` lines 8-16); the payload
messages are dropped. -/
inductive TspErr where
  | io : TspErr
  | parseErr : TspErr
  | formatErr : TspErr
deriving DecidableEq, Repr

/-- The mutable state of the line loop of `TsplibInstance::from_file`. -/
structure ScanSt where
  name : List Char
  dimension : Nat
  ewt : Option EdgeWeightType
  coords : List (Int × Int)
  inSection : Bool
deriving DecidableEq, Repr

def initSt : ScanSt := ⟨[], 0, none, [], false⟩

/-- One iteration of the line loop of `TsplibInstance::from_file`
(lines 53-99): trim; skip empty and `COMMENT` lines; enter the coordinate
section on its marker; inside the section, parse a coordinate line or leave
the section on mismatch; otherwise process a recognized header keyword. -/
def processLine (st : ScanSt) (raw : List Char) : Except TspErr ScanSt :=
  let line := trimChars raw
  if line.isEmpty ∨ line.take 7 = "COMMENT".toList then .ok st
  else if line = "NODE_COORD_SECTION".toList then .ok { st with inSection := true }
  else if st.inSection then
    match nodeCoordMatch line with
    | some (xTok, yTok) =>
      match parseIntTok xTok with
      | none => .error .parseErr
      | some x =>
        match parseIntTok yTok with
        | none => .error .parseErr
        | some y => .ok { st with coords := st.coords ++ [(x, y)] }
    | none => .ok { st with inSection := false }
  else
    match keywordSplit line with
    | some (key, value) =>
      if key = "NAME".toList then .ok { st with name := value }
      else if key = "DIMENSION".toList then
        match parseNatTok value with
        | none => .error .parseErr
        | some d => .ok { st with dimension := d }
      else if key = "EDGE_WEIGHT_TYPE".toList then
        match parseEwt value with
        | none => .error .formatErr
        | some w => .ok { st with ewt := some w }
      else .ok st
    | none => .ok st

def scanLines : List (List Char) → ScanSt → Except TspErr ScanSt
  | [], st => .ok st
  | l :: ls, st =>
    match processLine st l with
    | .error e => .error e
    | .ok st' => scanLines ls st'

/-- Outcome of `TsplibInstance::from_file`: success, a returned `Err`, or a
panic (the `panic!("Only EUC_2D is supported…")` reached through
`calculate_distance_matrix` for a recognized non-EUC_2D type). -/
inductive FromFileResult where
  | ok : EucInst → List Char → Nat → EdgeWeightType → FromFileResult
  | err : TspErr → FromFileResult
  | panicked : FromFileResult
deriving DecidableEq, Repr

/-- `TsplibInstance::from_file` (lines 37-126) over the file's lines: run the
line loop, then check `EDGE_WEIGHT_TYPE` presence, non-empty coordinates, and
coordinate count = `DIMENSION`, then build the distance matrix — which for a
recognized type other than `EUC_2D` panics on the first off-diagonal pair,
i.e. exactly when the dimension is at least 2. -/
def from_file (lines : List (List Char)) : FromFileResult :=
  match scanLines lines initSt with
  | .error e => .err e
  | .ok st =>
    match st.ewt with
    | none => .err .formatErr
    | some w =>
      if st.coords.isEmpty then .err .formatErr
      else if st.coords.length ≠ st.dimension then .err .formatErr
      else
        match w with
        | .euc2d => .ok ⟨st.coords⟩ st.name st.dimension w
        | _ =>
          if 2 ≤ st.dimension then .panicked
          else .ok ⟨st.coords⟩ st.name st.dimension w

theorem scanLines_append :
    ∀ (xs ys : List (List Char)) (st : ScanSt),
      scanLines (xs ++ ys) st =
        match scanLines xs st with
        | .ok st' => scanLines ys st'
        | .error e => .error e := by
  intro xs
  induction xs with
  | nil => intro ys st; rfl
  | cons x xs ih =>
    intro ys st
    simp only [List.cons_append, scanLines]
    cases processLine st x with
    | error e => rfl
    | ok st' => exact ih ys st'

/-- C3 counterexample: a well-formed file declaring `EDGE_WEIGHT_TYPE:
CEIL_2D` — a type other than `EUC_2D` — with a matching coordinate count of
2.  `from_file` does not return an `Err`: the recognized type passes the
header match and the distance-matrix construction panics
(`"Only EUC_2D is supported for this task"`). -/
theorem c3_counterexample :
    from_file ["NAME: test".toList, "DIMENSION: 2".toList,
      "EDGE_WEIGHT_TYPE: CEIL_2D".toList, "NODE_COORD_SECTION".toList,
      "1 0 0".toList, "2 3 4".toList] = .panicked := by
  decide

/-- C3 (amended): `from_file` returns an `Err` (no panic) when a header line
declares an `EDGE_WEIGHT_TYPE` outside the five recognized strings, and when
the parsed coordinate count differs from `DIMENSION`; but for a recognized
type other than `EUC_2D` with matching coordinate count at least 2 it panics
in the distance-matrix construction instead of returning an `Err`. -/
theorem c3_from_file_amended :
    (∀ (pre post : List (List Char)) (l : List Char) (st : ScanSt) (v : List Char),
      scanLines pre initSt = .ok st → st.inSection = false →
      (trimChars l).isEmpty = false →
      (trimChars l).take 7 ≠ "COMMENT".toList →
      trimChars l ≠ "NODE_COORD_SECTION".toList →
      keywordSplit (trimChars l) = some ("EDGE_WEIGHT_TYPE".toList, v) →
      parseEwt v = none →
      from_file (pre ++ l :: post) = .err .formatErr) ∧
    (∀ (lines : List (List Char)) (st : ScanSt),
      scanLines lines initSt = .ok st → st.coords.length ≠ st.dimension →
      from_file lines = .err .formatErr) ∧
    (∀ (lines : List (List Char)) (st : ScanSt) (w : EdgeWeightType),
      scanLines lines initSt = .ok st → st.ewt = some w → w ≠ .euc2d →
      st.coords.length = st.dimension → 2 ≤ st.dimension →
      from_file lines = .panicked) := by
  refine ⟨?_, ?_, ?_⟩
  · intro pre post l st v hpre hsec h1 h2 h3 hkw hv
    have hne1 : ("EDGE_WEIGHT_TYPE".toList : List Char) ≠ "NAME".toList := by decide
    have hne2 : ("EDGE_WEIGHT_TYPE".toList : List Char) ≠ "DIMENSION".toList := by decide
    have hline : processLine st l = .error .formatErr := by
      simp [processLine, h1, hsec, hkw, hv, hne1, hne2]
      rw [if_neg (by simpa using h2), if_neg (by simpa using h3)]
    have hscan : scanLines (pre ++ l :: post) initSt = .error .formatErr := by
      rw [scanLines_append, hpre]
      simp [scanLines, hline]
    simp [from_file, hscan]
  · intro lines st hscan hne
    simp only [from_file, hscan]
    cases hewt : st.ewt with
    | none => rfl
    | some w =>
      by_cases hemp : st.coords.isEmpty
      · simp [hemp]
      · simp [hemp, hne]
  · intro lines st w hscan hewt hne hlen hdim
    simp only [from_file, hscan, hewt]
    have hemp : st.coords.isEmpty = false := by
      rcases hc : st.coords with _ | ⟨x, xs⟩
      · rw [hc] at hlen
        simp at hlen
        omega
      · simp [hc]
    rw [if_neg (by simp [hemp]), if_neg (fun h => h hlen)]
    cases w with
    | euc2d => exact absurd rfl hne
    | explicitW => simp [hdim]
    | ceil2d => simp [hdim]
    | geo => simp [hdim]
    | att => simp [hdim]

/-- Witness for C3's amended claim: an unknown `EDGE_WEIGHT_TYPE` string gives
an `Err`; a coordinate count differing from `DIMENSION` gives an `Err`; a
recognized non-EUC_2D type with two matching coordinates panics. -/
theorem c3_witness :
    from_file ["DIMENSION: 1".toList, "EDGE_WEIGHT_TYPE: MAN_2D".toList] =
      .err .formatErr ∧
    from_file ["EDGE_WEIGHT_TYPE: EUC_2D".toList, "DIMENSION: 3".toList,
      "NODE_COORD_SECTION".toList, "1 0 0".toList] = .err .formatErr ∧
    from_file ["DIMENSION: 2".toList, "EDGE_WEIGHT_TYPE: GEO".toList,
      "NODE_COORD_SECTION".toList, "1 0 0".toList, "2 1 1".toList] = .panicked := by
  refine ⟨?_, ?_, ?_⟩
  · exact c3_from_file_amended.1 ["DIMENSION: 1".toList] []
      "EDGE_WEIGHT_TYPE: MAN_2D".toList ⟨[], 1, none, [], false⟩ "MAN_2D".toList
      (by rfl) (by decide) (by decide) (by decide) (by decide) (by decide) (by decide)
  · exact c3_from_file_amended.2.1 ["EDGE_WEIGHT_TYPE: EUC_2D".toList,
      "DIMENSION: 3".toList, "NODE_COORD_SECTION".toList, "1 0 0".toList]
      ⟨[], 3, some .euc2d, [(0, 0)], true⟩ (by rfl) (by decide)
  · exact c3_from_file_amended.2.2 ["DIMENSION: 2".toList,
      "EDGE_WEIGHT_TYPE: GEO".toList, "NODE_COORD_SECTION".toList,
      "1 0 0".toList, "2 1 1".toList]
      ⟨[], 2, some .geo, [(0, 0), (1, 1)], true⟩ .geo
      (by rfl) (by decide) (by decide) (by decide) (by decide)
